import Mathlib

/-!
Verification of the `toolcache` Go library (read-through tool-result cache).

The development shallowly embeds the library's core:
  * the canonical JSON encoder and key deriver (`keyer.go`),
  * the TTL policy (`policy.go`),
  * key validation (`cache.go`),
  * the in-memory backend (`memory.go`), with Go `time.Time`/`time.Duration`
    modelled as `Int` nanosecond counts and byte slices as `List Nat`,
  * the read-through middleware (`middleware.go`), instrumented with an
    explicit trace of cache operations and an executor-invocation counter.

The SHA-256 digest used by the key deriver comes from Go's standard library
(`crypto/sha256`), an external collaborator of this repository; it is modelled
as an arbitrary function parameter `hashHex : String → String` standing for
`hex.EncodeToString(sha256.Sum256(canonicalBytes)[:8])`.  Every theorem below
that mentions it holds for all such functions, hence for SHA-256 itself.
-/

namespace Toolcache

/-! ## Byte-lexicographic string order

Go's `sort.Strings` compares strings byte-wise.  Lean's built-in `String`
order does not reduce in the kernel, so we define the same order explicitly
on code-point sequences (UTF-8 byte order and code-point order agree). -/

/-- Boolean lexicographic `≤` on sequences of naturals. -/
def lexLe : List Nat → List Nat → Bool
  | [], _ => true
  | _ :: _, [] => false
  | a :: as, b :: bs =>
    if a < b then true else if b < a then false else lexLe as bs

/-- The code points of a string, standing for its byte sequence
(UTF-8 byte order coincides with code-point order). -/
def strBytes (s : String) : List Nat := s.data.map Char.toNat

/-- Order on rendered key/value pairs: compare the keys byte-wise,
as Go's `sort.Strings` does in `writeCanonical`. -/
def keyLE (a b : String × String) : Prop := lexLe (strBytes a.1) (strBytes b.1) = true

instance : DecidableRel keyLE := fun a b => inferInstanceAs (Decidable (_ = true))

theorem lexLe_total : ∀ xs ys, lexLe xs ys = true ∨ lexLe ys xs = true := by
  intro xs
  induction xs with
  | nil => intro ys; left; rfl
  | cons a as ih =>
    intro ys
    cases ys with
    | nil => right; rfl
    | cons b bs =>
      by_cases hab : a < b
      · left; simp [lexLe, hab]
      · by_cases hba : b < a
        · right; simp [lexLe, hba, hab]
        · rcases ih bs with h | h
          · left; simp [lexLe, hab, hba, h]
          · right; simp [lexLe, hab, hba, h]

theorem lexLe_trans :
    ∀ xs ys zs, lexLe xs ys = true → lexLe ys zs = true → lexLe xs zs = true := by
  intro xs
  induction xs with
  | nil => intro ys zs _ _; rfl
  | cons a as ih =>
    intro ys zs h1 h2
    cases ys with
    | nil => simp [lexLe] at h1
    | cons b bs =>
      cases zs with
      | nil => simp [lexLe] at h2
      | cons c cs =>
        simp only [lexLe] at h1 h2 ⊢
        split_ifs at h1 h2 ⊢ <;>
          first
            | rfl
            | omega
            | (exfalso; omega)
            | (exact ih bs cs h1 h2)
            | simp_all

theorem lexLe_antisymm :
    ∀ xs ys, lexLe xs ys = true → lexLe ys xs = true → xs = ys := by
  intro xs
  induction xs with
  | nil =>
    intro ys h1 h2
    cases ys with
    | nil => rfl
    | cons b bs => simp [lexLe] at h2
  | cons a as ih =>
    intro ys h1 h2
    cases ys with
    | nil => simp [lexLe] at h1
    | cons b bs =>
      simp only [lexLe] at h1 h2
      split_ifs at h1 h2 <;> try omega
      have : a = b := by omega
      subst this
      rw [ih bs h1 h2]

instance : IsTotal (String × String) keyLE := ⟨fun a b => lexLe_total _ _⟩

instance : IsTrans (String × String) keyLE := ⟨fun _ _ _ h1 h2 => lexLe_trans _ _ _ h1 h2⟩

/-! ## Canonical JSON encoder (`keyer.go`, `writeCanonical` / `writeJSONString`)

`CanonVal` is the closed canonical variant of §3 of the spec: the value
shapes `writeCanonical` supports.  Go's `float64` case is omitted: numbers
are the `int`/`int64` cases, rendered with `%d` (plain decimal), which
`toString : Int → String` matches.  Any other Go value makes
`canonicalJSON` return an error; such values lie outside this variant. -/

inductive CanonVal where
  | null
  | bool (b : Bool)
  | int (i : Int)
  | str (s : String)
  | arr (elems : List CanonVal)
  | obj (pairs : List (String × CanonVal))

/-- Comma-separated concatenation, mirroring the `i > 0` comma logic
of `writeCanonical`. -/
def joinComma : List String → String
  | [] => ""
  | [s] => s
  | s :: rest => s ++ "," ++ joinComma rest

/-- Lower-case hex digit, as produced by Go's `%04x`. -/
def hexDigit (n : Nat) : Char :=
  if n < 10 then Char.ofNat (48 + n) else Char.ofNat (87 + n)

/-- Four-digit lower-case hex rendering of a code point, Go's `%04x`
(control characters are below 0x20, so four digits always suffice). -/
def hex4 (n : Nat) : String :=
  String.mk [hexDigit (n / 4096 % 16), hexDigit (n / 256 % 16),
             hexDigit (n / 16 % 16), hexDigit (n % 16)]

/-- Escaping of a single rune, from `writeJSONString`'s switch. -/
def escapeChar (r : Char) : String :=
  if r = '"' then "\\\""
  else if r = '\\' then "\\\\"
  else if r = '\n' then "\\n"
  else if r = '\r' then "\\r"
  else if r = '\t' then "\\t"
  else if r.toNat < 0x20 then "\\u" ++ hex4 r.toNat
  else String.mk [r]

/-- `writeJSONString`: quote and escape, iterating over runes in order. -/
def writeJSONString (s : String) : String :=
  "\"" ++ String.join (s.data.map escapeChar) ++ "\""

/-- Sorting of the rendered pairs of a mapping by byte-wise key order —
the `sort.Strings(keys)` step of `writeCanonical`. -/
def sortPairs (l : List (String × String)) : List (String × String) :=
  l.insertionSort keyLE

mutual

/-- `writeCanonical` from `keyer.go`.  For a mapping, Go collects the keys,
sorts them byte-wise, and emits `key:val[key]` in sorted order; since a Go
map holds each key at most once, this equals rendering every pair and then
sorting the rendered pairs by key, which is how the model phrases it. -/
def writeCanonical : CanonVal → String
  | .null => "null"
  | .bool true => "true"
  | .bool false => "false"
  | .int i => toString i
  | .str s => writeJSONString s
  | .arr elems => "[" ++ joinComma (renderList elems) ++ "]"
  | .obj pairs =>
      "\x7b" ++
        joinComma ((sortPairs (renderPairs pairs)).map
          (fun q => writeJSONString q.1 ++ ":" ++ q.2)) ++
      "\x7d"

/-- Renders the elements of an array in original order. -/
def renderList : List CanonVal → List String
  | [] => []
  | v :: rest => writeCanonical v :: renderList rest

/-- Renders the value of every pair of a mapping, keeping the keys. -/
def renderPairs : List (String × CanonVal) → List (String × String)
  | [] => []
  | p :: rest => (p.1, writeCanonical p.2) :: renderPairs rest

end

/-- `canonicalJSON`: the canonical byte sequence (as a UTF-8 string) of a
value.  Total on `CanonVal` — the Go error branch fires only on shapes
outside the closed variant. -/
def canonicalJSON (v : CanonVal) : String := writeCanonical v

/-- `DefaultKeyer.Key`: `toolcache:<toolID>:<hashHex>` where `hashHex` stands
for the truncated SHA-256 digest of the canonical bytes (see the module
comment).  Total on `CanonVal` as `canonicalJSON` is. -/
def Key (hashHex : String → String) (toolID : String) (input : CanonVal) : String :=
  "toolcache:" ++ toolID ++ ":" ++ hashHex (canonicalJSON input)

/-! ## Key validation (`cache.go`) -/

/-- `MaxKeyLength = 512`. -/
def MaxKeyLength : Nat := 512

/-- The two error values `ErrInvalidKey` / `ErrKeyTooLong`. -/
inductive KeyError where
  | invalidKey
  | keyTooLong
deriving DecidableEq, Repr

/-- Whitespace as recognised by Go's `strings.TrimSpace` on ASCII/Latin-1
(its fast path; the `unicode.Zs` extras beyond U+00A0 are not relevant to
any key this development touches). -/
def goIsSpace (c : Char) : Bool :=
  c == ' ' || c == '\t' || c == '\n' || (c == Char.ofNat 0x0B) ||
    (c == Char.ofNat 0x0C) || c == '\r' || (c.toNat == 0x85) || (c.toNat == 0xA0)

/-- `strings.TrimSpace`: drop leading and trailing whitespace. -/
def trimSpace (s : String) : String :=
  String.mk (((s.data.dropWhile goIsSpace).reverse.dropWhile goIsSpace).reverse)

/-- `len(s)` on a Go string: its UTF-8 byte count. -/
def byteLen (s : String) : Nat :=
  s.data.foldl (fun n c => n + c.utf8Size) 0

/-- `strings.ContainsAny(key, "\n\r")`. -/
def containsCRLF (s : String) : Bool :=
  s.data.any (fun c => c == '\n' || c == '\r')

/-- `ValidateKey` from `cache.go`: empty or whitespace-only → `ErrInvalidKey`;
longer than `MaxKeyLength` bytes → `ErrKeyTooLong`; containing a CR or LF
byte → `ErrInvalidKey`; otherwise no error. -/
def ValidateKey (key : String) : Option KeyError :=
  if byteLen key = 0 ∨ byteLen (trimSpace key) = 0 then some .invalidKey
  else if MaxKeyLength < byteLen key then some .keyTooLong
  else if containsCRLF key then some .invalidKey
  else none

/-! ## TTL policy (`policy.go`)

Go durations are `int64` nanosecond counts; they are modelled as `Int`. -/

/-- One minute of nanoseconds (`time.Minute`). -/
def Minute : Int := 60000000000

/-- One hour of nanoseconds (`time.Hour`). -/
def Hour : Int := 3600000000000

/-- The `Policy` struct. -/
structure Policy where
  DefaultTTL : Int
  MaxTTL : Int
  AllowUnsafe : Bool
deriving DecidableEq, Repr

/-- `Policy.EffectiveTTL`, translated statement by statement:
start from the override when it is positive, else from `DefaultTTL`;
clamp to `MaxTTL` when `MaxTTL` is positive and exceeded; map a negative
result to zero. -/
def Policy.EffectiveTTL (p : Policy) (override : Int) : Int :=
  let ttl0 := if 0 < override then override else p.DefaultTTL
  let ttl1 := if 0 < p.MaxTTL ∧ p.MaxTTL < ttl0 then p.MaxTTL else ttl0
  if ttl1 < 0 then 0 else ttl1

/-- `Policy.ShouldCache`: whether `DefaultTTL > 0`. -/
def Policy.ShouldCache (p : Policy) : Bool := 0 < p.DefaultTTL

/-- `DefaultPolicy()`: 5 minutes default, 1 hour maximum, unsafe caching off. -/
def DefaultPolicy : Policy := ⟨5 * Minute, Hour, false⟩

/-- `NoCachePolicy()`: everything zero, caching disabled. -/
def NoCachePolicy : Policy := ⟨0, 0, false⟩

/-! ## In-memory backend (`memory.go`)

The Go map `map[string]*cacheEntry` is modelled as an association list with
at most one binding per key (`setEntry` replaces in place, `eraseEntry`
removes every binding).  `time.Now()` is an explicit `now : Int` argument.
Byte slices are modelled as pure `List Nat` values here; the aliasing that
the real slices exhibit is modelled separately below (`HMemoryCache`). -/

/-- A stored entry: value bytes plus absolute expiration timestamp. -/
structure cacheEntry where
  value : List Nat
  expiresAt : Int
deriving DecidableEq, Repr

/-- The `MemoryCache` struct: entry map plus the (never consulted) policy
field.  The `sync.RWMutex` has no sequential content. -/
structure MemoryCache where
  entries : List (String × cacheEntry)
  policy : Policy
deriving DecidableEq, Repr

/-- `NewMemoryCache`: empty entry map, stores the given policy. -/
def NewMemoryCache (policy : Policy) : MemoryCache := ⟨[], policy⟩

/-- Go map lookup `c.entries[key]`. -/
def lookupEntry : List (String × cacheEntry) → String → Option cacheEntry
  | [], _ => none
  | p :: rest, key => if p.1 = key then some p.2 else lookupEntry rest key

/-- Go map assignment `c.entries[key] = e`: replace the binding in place,
or add one. -/
def setEntry : List (String × cacheEntry) → String → cacheEntry → List (String × cacheEntry)
  | [], key, e => [(key, e)]
  | p :: rest, key, e => if p.1 = key then (key, e) :: rest else p :: setEntry rest key e

/-- Go `delete(c.entries, key)`. -/
def eraseEntry (l : List (String × cacheEntry)) (key : String) : List (String × cacheEntry) :=
  l.filter (fun p => p.1 ≠ key)

/-- `MemoryCache.Get`: miss on absent key; an entry with
`time.Now().After(expiresAt)` (that is, `expiresAt < now`) is deleted and
reported as a miss; otherwise the stored value is returned. -/
def MemGet (now : Int) (c : MemoryCache) (key : String) :
    Option (List Nat) × MemoryCache :=
  match lookupEntry c.entries key with
  | none => (none, c)
  | some e =>
    if e.expiresAt < now then (none, { c with entries := eraseEntry c.entries key })
    else (some e.value, c)

/-- `MemoryCache.Set`: a non-positive TTL returns nil without touching the
map; otherwise the entry is stored with expiration `now + ttl`.  The
returned `Option Unit` is the Go `error` (always `none` = nil). -/
def MemSet (now : Int) (c : MemoryCache) (key : String) (value : List Nat) (ttl : Int) :
    Option Unit × MemoryCache :=
  if ttl ≤ 0 then (none, c)
  else (none, { c with entries := setEntry c.entries key ⟨value, now + ttl⟩ })

/-- `MemoryCache.Delete`. -/
def MemDelete (c : MemoryCache) (key : String) : Option Unit × MemoryCache :=
  (none, { c with entries := eraseEntry c.entries key })

/-! ## Read-through middleware (`middleware.go`) -/

/-- `DefaultUnsafeTags`. -/
def DefaultUnsafeTags : List String := ["write", "danger", "unsafe", "mutation", "delete"]

/-- `strings.ToLower`, as a rune-wise map (`Char.toLower` agrees with Go's
lower-casing on the ASCII range the unsafe-tag vocabulary lives in). -/
def lowerStr (s : String) : String := String.mk (s.data.map Char.toLower)

/-- `DefaultSkipRule`: skip when any tag, lower-cased, is one of the unsafe
tags. -/
def DefaultSkipRule (_toolID : String) (tags : List String) : Bool :=
  tags.any (fun tag => DefaultUnsafeTags.any (fun u => lowerStr tag = u))

/-- The `CacheMiddleware` struct.  The `cache` field is the threaded
`MemoryCache` state, the `keyer` field is `DefaultKeyer` (represented by the
`hashHex` parameter of `Execute`); the Go nil-able `skipRule` function field
is an `Option`. -/
structure Middleware where
  policy : Policy
  skipRule : Option (String → List String → Bool)

/-- `shouldSkip`: `AllowUnsafe` wins; otherwise a configured rule decides;
otherwise the default rule does. -/
def shouldSkip (mw : Middleware) (toolID : String) (tags : List String) : Bool :=
  if mw.policy.AllowUnsafe then false
  else
    match mw.skipRule with
    | some rule => rule toolID tags
    | none => DefaultSkipRule toolID tags

/-- Observable cache operations performed by one `Execute` call. -/
inductive Op where
  | get (key : String)
  | set (key : String) (value : List Nat) (ttl : Int)
  | exec
deriving DecidableEq, Repr

/-- Result of one instrumented `Execute` call: the returned
`([]byte, error)`, the cache state after the call, the total number of
executor invocations so far, and the operations the call performed. -/
structure ExecOut (ε : Type) where
  result : Except ε (List Nat)
  cache : MemoryCache
  calls : Nat
  trace : List Op

/-- `CacheMiddleware.Execute` over a `MemoryCache`, instrumented.

The executor is `f : Nat → Except ε (List Nat)` applied to the number of
executor invocations made so far (`n`), so stateful executors — such as the
tests' call counters — are expressible.  Go's keyer-error branch (fall back
to direct execution) is dead here because `Key` is total on `CanonVal`.
A `Set` error being discarded (`_ =`) is faithful: `MemSet` never errs. -/
def Execute (hashHex : String → String) (mw : Middleware) (now : Int) (toolID : String)
    (input : CanonVal) (tags : List String) {ε : Type} (f : Nat → Except ε (List Nat))
    (n : Nat) (c : MemoryCache) : ExecOut ε :=
  if shouldSkip mw toolID tags then ⟨f n, c, n + 1, [Op.exec]⟩
  else
    let key := Key hashHex toolID input
    match MemGet now c key with
    | (some v, c1) => ⟨.ok v, c1, n, [Op.get key]⟩
    | (none, c1) =>
      match f n with
      | .error e => ⟨.error e, c1, n + 1, [Op.get key, Op.exec]⟩
      | .ok result =>
        let ttl := mw.policy.EffectiveTTL 0
        if 0 < ttl then
          ⟨.ok result, (MemSet now c1 key result ttl).2, n + 1,
            [Op.get key, Op.exec, Op.set key result ttl]⟩
        else ⟨.ok result, c1, n + 1, [Op.get key, Op.exec]⟩

/-! ## Slice aliasing model of the backend (for the ownership contract)

Go slices are references into shared backing arrays.  `memory.go` stores the
caller's slice header unchanged (`value: value`) and `Get` returns the stored
header unchanged (`return entry.value`), so the store and its callers alias
one backing array.  To make that observable, byte buffers live in an explicit
heap and a slice is an address into it; `HSet`/`HGet` move only addresses,
exactly as the Go code moves only slice headers. -/

/-- The heap of byte buffers; a slice value is an index into it. -/
def Heap := List (List Nat)

/-- Read the buffer a slice refers to. -/
def heapRead (h : Heap) (ref : Nat) : List Nat := List.getD h ref []

/-- Mutate one byte of a buffer in place, through any alias of it. -/
def heapWrite (h : Heap) (ref idx b : Nat) : Heap :=
  List.set h ref (List.set (List.getD h ref []) idx b)

/-- `cacheEntry` as the code lays it out: the slice header (here: address),
not a copy of the bytes. -/
structure HCacheEntry where
  value : Nat
  expiresAt : Int
deriving DecidableEq, Repr

/-- Entry map of the aliasing model. -/
def HEntries := List (String × HCacheEntry)

/-- Map lookup, as `lookupEntry`. -/
def hLookup : HEntries → String → Option HCacheEntry
  | [], _ => none
  | p :: rest, key => if p.1 = key then some p.2 else hLookup rest key

/-- Map assignment, as `setEntry`. -/
def hSetEntry : HEntries → String → HCacheEntry → HEntries
  | [], key, e => [(key, e)]
  | p :: rest, key, e => if p.1 = key then (key, e) :: rest else p :: hSetEntry rest key e

/-- `MemoryCache.Set` in the aliasing model: stores the caller's slice
address itself — `value: value` in the source copies the header only. -/
def HSet (now : Int) (entries : HEntries) (key : String) (value : Nat) (ttl : Int) :
    HEntries :=
  if ttl ≤ 0 then entries
  else hSetEntry entries key ⟨value, now + ttl⟩

/-- `MemoryCache.Get` in the aliasing model: returns the stored slice
address itself — `return entry.value` in the source returns the header
without copying the bytes. -/
def HGet (now : Int) (entries : HEntries) (key : String) : Option Nat × HEntries :=
  match hLookup entries key with
  | none => (none, entries)
  | some e =>
    if e.expiresAt < now then (none, entries.filter (fun p => p.1 ≠ key))
    else (some e.value, entries)

/-! ## Call sequences against one backend (for the policy-independence claim) -/

/-- One `Cache` call: the `time.Now()` of the call is explicit. -/
inductive CacheCmd where
  | get (now : Int) (key : String)
  | set (now : Int) (key : String) (value : List Nat) (ttl : Int)
  | del (key : String)
deriving DecidableEq, Repr

/-- The observable outcome of one `Cache` call: `Get`'s value-and-ok result,
or the `error` result of `Set`/`Delete`. -/
inductive CacheOut where
  | got (v : Option (List Nat))
  | errOf (e : Option Unit)
deriving DecidableEq, Repr

/-- Run one call against a `MemoryCache`. -/
def stepCmd (c : MemoryCache) : CacheCmd → CacheOut × MemoryCache
  | .get now key => let r := MemGet now c key; (.got r.1, r.2)
  | .set now key value ttl => let r := MemSet now c key value ttl; (.errOf r.1, r.2)
  | .del key => let r := MemDelete c key; (.errOf r.1, r.2)

/-- Run a call sequence, collecting every observable result. -/
def runCmds (c : MemoryCache) : List CacheCmd → List CacheOut × MemoryCache
  | [] => ([], c)
  | cmd :: rest =>
    let r := stepCmd c cmd
    let rr := runCmds r.2 rest
    (r.1 :: rr.1, rr.2)

/-! ## Helper lemmas -/

theorem lookupEntry_erase (l : List (String × cacheEntry)) (key : String) :
    lookupEntry (eraseEntry l key) key = none := by
  induction l with
  | nil => rfl
  | cons p rest ih =>
    by_cases h : p.1 = key
    · simpa [eraseEntry, List.filter_cons, h] using ih
    · simpa [eraseEntry, List.filter_cons, h, lookupEntry] using ih

theorem lookupEntry_set_self (l : List (String × cacheEntry)) (key : String) (e : cacheEntry) :
    lookupEntry (setEntry l key e) key = some e := by
  induction l with
  | nil => simp [setEntry, lookupEntry]
  | cons p rest ih =>
    by_cases h : p.1 = key
    · simp [setEntry, h, lookupEntry]
    · simp [setEntry, h, lookupEntry, ih]

theorem char_toNat_injective : Function.Injective Char.toNat := by
  intro a b h
  have := congrArg Char.ofNat h
  rwa [Char.ofNat_toNat, Char.ofNat_toNat] at this

theorem strBytes_inj {s t : String} (h : strBytes s = strBytes t) : s = t := by
  have hd : s.data = t.data := List.map_injective_iff.mpr char_toNat_injective h
  cases s; cases t
  exact congrArg String.mk hd

/-- Strict key order on rendered pairs: used to see that two sorted
permutations with duplicate-free keys coincide. -/
def keyLT (a b : String × String) : Prop := keyLE a b ∧ a.1 ≠ b.1

instance : IsAntisymm (String × String) keyLT :=
  ⟨fun a b h1 h2 => absurd (strBytes_inj (lexLe_antisymm _ _ h1.1 h2.1)) h1.2⟩

theorem sorted_keyLT_of_nodup {l : List (String × String)}
    (hs : l.Sorted keyLE) (hn : (l.map Prod.fst).Nodup) : l.Sorted keyLT := by
  rw [List.Nodup, List.pairwise_map] at hn
  exact hs.and hn

theorem sortPairs_eq_of_perm {l1 l2 : List (String × String)} (hp : l1.Perm l2)
    (hn : (l1.map Prod.fst).Nodup) : sortPairs l1 = sortPairs l2 := by
  have hperm : (sortPairs l1).Perm (sortPairs l2) :=
    (List.perm_insertionSort keyLE l1).trans (hp.trans (List.perm_insertionSort keyLE l2).symm)
  have hn1 : ((sortPairs l1).map Prod.fst).Nodup :=
    (((List.perm_insertionSort keyLE l1).map Prod.fst).nodup_iff).mpr hn
  have hn2 : ((sortPairs l2).map Prod.fst).Nodup :=
    (((List.perm_insertionSort keyLE l2).map Prod.fst).nodup_iff).mpr
      ((hp.map Prod.fst).nodup_iff.mp hn)
  exact List.eq_of_perm_of_sorted (r := keyLT) hperm
    (sorted_keyLT_of_nodup (List.sorted_insertionSort keyLE l1) hn1)
    (sorted_keyLT_of_nodup (List.sorted_insertionSort keyLE l2) hn2)

theorem renderPairs_eq_map (l : List (String × CanonVal)) :
    renderPairs l = l.map (fun p => (p.1, writeCanonical p.2)) := by
  induction l with
  | nil => rfl
  | cons p rest ih => simp [renderPairs, ih]

theorem renderPairs_fst (l : List (String × CanonVal)) :
    (renderPairs l).map Prod.fst = l.map Prod.fst := by
  rw [renderPairs_eq_map, List.map_map]
  rfl

theorem stepCmd_policy_blind {c1 c2 : MemoryCache} (h : c1.entries = c2.entries)
    (cmd : CacheCmd) :
    (stepCmd c1 cmd).1 = (stepCmd c2 cmd).1
      ∧ (stepCmd c1 cmd).2.entries = (stepCmd c2 cmd).2.entries := by
  cases cmd with
  | get now key =>
    simp only [stepCmd, MemGet, h]
    cases lookupEntry c2.entries key with
    | none => simp [h]
    | some e =>
      by_cases hexp : e.expiresAt < now <;> simp [hexp, h]
  | set now key value ttl =>
    simp only [stepCmd, MemSet, h]
    by_cases httl : ttl ≤ 0 <;> simp [httl, h]
  | del key => simp [stepCmd, MemDelete, h]

theorem runCmds_policy_blind :
    ∀ (cmds : List CacheCmd) {c1 c2 : MemoryCache}, c1.entries = c2.entries →
      (runCmds c1 cmds).1 = (runCmds c2 cmds).1
        ∧ (runCmds c1 cmds).2.entries = (runCmds c2 cmds).2.entries := by
  intro cmds
  induction cmds with
  | nil => intro c1 c2 h; exact ⟨rfl, h⟩
  | cons cmd rest ih =>
    intro c1 c2 h
    have hstep := stepCmd_policy_blind h cmd
    have hrec := ih hstep.2
    simp only [runCmds]
    exact ⟨by rw [hstep.1, hrec.1], hrec.2⟩

/-! ## The claims -/

/-- C3: `Policy.EffectiveTTL` starts from a strictly positive override,
otherwise from `DefaultTTL`; clamps to `MaxTTL` when `MaxTTL` is strictly
positive and exceeded; normalizes a negative result to zero — equivalently
it is the clamp `max (...) 0` below; and on the policy `DefaultTTL = 5m`,
`MaxTTL = 1h` it maps override `0 ↦ 5m`, `3m ↦ 3m`, `90m ↦ 60m`, while the
all-zero policy maps `0 ↦ 0`. -/
theorem c3_ttl_resolution :
    (∀ (p : Policy) (o : Int),
        p.EffectiveTTL o =
          max (if 0 < p.MaxTTL
               then min (if 0 < o then o else p.DefaultTTL) p.MaxTTL
               else if 0 < o then o else p.DefaultTTL) 0)
      ∧ DefaultPolicy.EffectiveTTL 0 = 5 * Minute
      ∧ DefaultPolicy.EffectiveTTL (3 * Minute) = 3 * Minute
      ∧ DefaultPolicy.EffectiveTTL (90 * Minute) = 60 * Minute
      ∧ NoCachePolicy.EffectiveTTL 0 = 0 := by
  refine ⟨fun p o => ?_, by decide, by decide, by decide, by decide⟩
  simp only [Policy.EffectiveTTL]
  split_ifs <;> omega

/-- C5 (code bug): `ValidateKey` rejects the key `"\n"`, but
`MemoryCache.Set` never consults `ValidateKey`: with a positive TTL it
returns a nil error and creates an entry under the invalid key, contrary to
the claim (and to the `Cache` interface contract in `cache.go`). -/
theorem c5_set_skips_validation :
    ValidateKey "\n" = some KeyError.invalidKey
      ∧ MemSet 0 (NewMemoryCache DefaultPolicy) "\n" [1] (5 * Minute) =
          (none, ⟨[("\n", ⟨[1], 5 * Minute⟩)], DefaultPolicy⟩)
      ∧ lookupEntry (MemSet 0 (NewMemoryCache DefaultPolicy) "\n" [1] (5 * Minute)).2.entries "\n" =
          some ⟨[1], 5 * Minute⟩ := by
  refine ⟨by decide, by decide, by decide⟩

/-- C6: when the stored entry under a key has expired strictly before the
current time, `MemoryCache.Get` reports a miss and the very same call purges
the entry, so the store no longer contains the key. -/
theorem c6_lazy_expiration (c : MemoryCache) (key : String) (e : cacheEntry) (now : Int)
    (hfound : lookupEntry c.entries key = some e) (hexp : e.expiresAt < now) :
    MemGet now c key = (none, { c with entries := eraseEntry c.entries key })
      ∧ lookupEntry (MemGet now c key).2.entries key = none := by
  have h1 : MemGet now c key = (none, { c with entries := eraseEntry c.entries key }) := by
    simp [MemGet, hfound, hexp]
  exact ⟨h1, by rw [h1]; exact lookupEntry_erase c.entries key⟩

/-- C6 witness at a concrete expired entry. -/
theorem c6_witness :
    lookupEntry [("k", (⟨[7], 10⟩ : cacheEntry))] "k" = some ⟨[7], 10⟩
      ∧ (10 : Int) < 11
      ∧ (MemGet 11 ⟨[("k", ⟨[7], 10⟩)], DefaultPolicy⟩ "k" =
            (none, { (⟨[("k", ⟨[7], 10⟩)], DefaultPolicy⟩ : MemoryCache) with
                      entries := eraseEntry [("k", ⟨[7], 10⟩)] "k" })
          ∧ lookupEntry (MemGet 11 ⟨[("k", ⟨[7], 10⟩)], DefaultPolicy⟩ "k").2.entries "k" = none) :=
  ⟨by decide, by decide,
    c6_lazy_expiration ⟨[("k", ⟨[7], 10⟩)], DefaultPolicy⟩ "k" ⟨[7], 10⟩ 11 (by decide) (by decide)⟩

/-- C7: `Set` with a non-positive TTL returns a nil error and leaves the
store exactly as it was; in particular a pre-existing unexpired entry under
the same key still answers a later `Get`. -/
theorem c7_nonpositive_ttl_noop (c : MemoryCache) (key : String) (value : List Nat)
    (ttl now : Int) (h : ttl ≤ 0) :
    MemSet now c key value ttl = (none, c)
      ∧ ∀ (now2 : Int) (e : cacheEntry), lookupEntry c.entries key = some e →
          ¬ e.expiresAt < now2 →
          MemGet now2 (MemSet now c key value ttl).2 key =
            (some e.value, (MemSet now c key value ttl).2) := by
  have h1 : MemSet now c key value ttl = (none, c) := by simp [MemSet, h]
  refine ⟨h1, fun now2 e hfound hlive => ?_⟩
  rw [h1]
  simp [MemGet, hfound, hlive]

/-- C7 witness: a `Set` with TTL `-3` over an existing entry changes
nothing and the old value is still served. -/
theorem c7_witness :
    (-3 : Int) ≤ 0
      ∧ (MemSet 4 ⟨[("k", ⟨[7], 10⟩)], DefaultPolicy⟩ "k" [9] (-3) =
            (none, ⟨[("k", ⟨[7], 10⟩)], DefaultPolicy⟩)
          ∧ ∀ (now2 : Int) (e : cacheEntry),
              lookupEntry (⟨[("k", ⟨[7], 10⟩)], DefaultPolicy⟩ : MemoryCache).entries "k" = some e →
              ¬ e.expiresAt < now2 →
              MemGet now2 (MemSet 4 ⟨[("k", ⟨[7], 10⟩)], DefaultPolicy⟩ "k" [9] (-3)).2 "k" =
                (some e.value, (MemSet 4 ⟨[("k", ⟨[7], 10⟩)], DefaultPolicy⟩ "k" [9] (-3)).2)) :=
  ⟨by decide, c7_nonpositive_ttl_noop ⟨[("k", ⟨[7], 10⟩)], DefaultPolicy⟩ "k" [9] (-3) 4 (by decide)⟩

/-- C10: the `Policy` handed to `NewMemoryCache` is dead state — no
`Get`/`Set`/`Delete` ever reads it — so any call sequence produces the same
observable results and the same final entry map whatever the two policies
were. -/
theorem c10_policy_is_inert (p1 p2 : Policy) (cmds : List CacheCmd) :
    (runCmds (NewMemoryCache p1) cmds).1 = (runCmds (NewMemoryCache p2) cmds).1
      ∧ (runCmds (NewMemoryCache p1) cmds).2.entries =
          (runCmds (NewMemoryCache p2) cmds).2.entries :=
  runCmds_policy_blind cmds rfl

/-- C2: permuting the pairs of a string-keyed mapping (whose keys are
duplicate-free, as the keys of a Go map are) leaves the canonical encoding
byte-for-byte identical — keys are emitted sorted byte-wise — and hence the
derived cache key identical, for every digest function and tool identifier.
Key determinism for structurally equal input is the reflexive instance of
the same equality. -/
theorem c2_canonical_order_insensitivity (l1 l2 : List (String × CanonVal))
    (hperm : l1.Perm l2) (hnodup : (l1.map Prod.fst).Nodup) :
    canonicalJSON (.obj l1) = canonicalJSON (.obj l2)
      ∧ ∀ (hashHex : String → String) (toolID : String),
          Key hashHex toolID (.obj l1) = Key hashHex toolID (.obj l2) := by
  have hrp : (renderPairs l1).Perm (renderPairs l2) := by
    rw [renderPairs_eq_map, renderPairs_eq_map]
    exact hperm.map _
  have hrn : ((renderPairs l1).map Prod.fst).Nodup := by
    rw [renderPairs_fst]
    exact hnodup
  have hsort := sortPairs_eq_of_perm hrp hrn
  have hc : canonicalJSON (.obj l1) = canonicalJSON (.obj l2) := by
    simp only [canonicalJSON, writeCanonical]
    rw [hsort]
  exact ⟨hc, fun hashHex toolID => by simp only [Key, hc]⟩

/-- C2 witness: the spec's example mapping in its two orders. -/
theorem c2_witness :
    ([("path", CanonVal.str "/tmp/file"), ("mode", CanonVal.str "r")].Perm
        [("mode", CanonVal.str "r"), ("path", CanonVal.str "/tmp/file")])
      ∧ ([("path", CanonVal.str "/tmp/file"), ("mode", CanonVal.str "r")].map Prod.fst).Nodup
      ∧ canonicalJSON (.obj [("path", CanonVal.str "/tmp/file"), ("mode", CanonVal.str "r")]) =
          canonicalJSON (.obj [("mode", CanonVal.str "r"), ("path", CanonVal.str "/tmp/file")]) :=
  ⟨List.Perm.swap _ _ _, by decide,
    (c2_canonical_order_insensitivity _ _ (List.Perm.swap _ _ _) (by decide)).1⟩

/-- C4 (code bug): `memory.go` stores the caller's slice header and returns
the stored header (`value: value`, `return entry.value`), never copying the
bytes, contrary to the claim and to the `Cache` interface contract
("implementations should copy on write").  In the aliasing model: the caller
owns buffer address 0 holding `[1]` and passes it to `Set`; after `Set`
returns, the caller overwrites its buffer with `[2]`; a subsequent `Get`
yields the very same address, through which the value now reads `[2]`, not
the `[1]` that was set. -/
theorem c4_no_defensive_copies :
    (HGet 1 (HSet 0 [] "k" 0 (5 * Minute)) "k").1 = some 0
      ∧ heapRead [[1]] 0 = [1]
      ∧ heapRead (heapWrite [[1]] 0 0 2) 0 = [2] := by
  refine ⟨by decide, by decide, by decide⟩

/-- C8: the skip decision — `AllowUnsafe` forces no skip; otherwise a
configured rule alone decides; otherwise the default rule decides — and a
skipped call returns the executor's result with no cache operation at all
(the trace holds only the executor invocation, the store is untouched). -/
theorem c8_skip_precedence (hashHex : String → String) (mw : Middleware) (now : Int)
    (toolID : String) (input : CanonVal) (tags : List String) {ε : Type}
    (f : Nat → Except ε (List Nat)) (n : Nat) (c : MemoryCache) :
    (mw.policy.AllowUnsafe = true → shouldSkip mw toolID tags = false)
      ∧ (∀ rule, mw.policy.AllowUnsafe = false → mw.skipRule = some rule →
          shouldSkip mw toolID tags = rule toolID tags)
      ∧ (mw.policy.AllowUnsafe = false → mw.skipRule = none →
          shouldSkip mw toolID tags = DefaultSkipRule toolID tags)
      ∧ (shouldSkip mw toolID tags = true →
          Execute hashHex mw now toolID input tags f n c = ⟨f n, c, n + 1, [Op.exec]⟩) :=
  ⟨fun h => by simp [shouldSkip, h],
    fun rule h1 h2 => by simp [shouldSkip, h1, h2],
    fun h1 h2 => by simp [shouldSkip, h1, h2],
    fun h => by simp [Execute, h]⟩

/-- C8 witness: a `write`-tagged call under the default policy and default
rule is skipped and executes directly, leaving the store untouched. -/
theorem c8_witness :
    shouldSkip ⟨DefaultPolicy, none⟩ "db:update" ["write"] = true
      ∧ Execute (fun s => s) ⟨DefaultPolicy, none⟩ 0 "db:update" CanonVal.null ["write"]
            (fun _ => (Except.ok [1] : Except Unit (List Nat))) 0 (NewMemoryCache DefaultPolicy) =
          ⟨Except.ok [1], NewMemoryCache DefaultPolicy, 1, [Op.exec]⟩ :=
  ⟨by decide,
    (c8_skip_precedence (fun s => s) ⟨DefaultPolicy, none⟩ 0 "db:update" CanonVal.null ["write"]
        (fun _ => (Except.ok [1] : Except Unit (List Nat))) 0
        (NewMemoryCache DefaultPolicy)).2.2.2 (by decide)⟩

/-- C9 (amended): on the miss path a failing executor's error is returned
verbatim, the executor ran exactly once, and nothing is written — the final
store is exactly the post-lookup store, which equals the initial store
whenever the lookup found no expired entry under the derived key (the
lookup's lazy purge is the one state change the claim overlooked). -/
theorem c9_executor_error_propagates (hashHex : String → String) (mw : Middleware)
    (now : Int) (toolID : String) (input : CanonVal) (tags : List String) {ε : Type}
    (e : ε) (f : Nat → Except ε (List Nat)) (n : Nat) (c : MemoryCache)
    (hskip : shouldSkip mw toolID tags = false)
    (hmiss : (MemGet now c (Key hashHex toolID input)).1 = none)
    (herr : f n = .error e) :
    Execute hashHex mw now toolID input tags f n c =
        ⟨.error e, (MemGet now c (Key hashHex toolID input)).2, n + 1,
          [Op.get (Key hashHex toolID input), Op.exec]⟩
      ∧ ((∀ en, lookupEntry c.entries (Key hashHex toolID input) = some en →
            ¬ en.expiresAt < now) →
          (MemGet now c (Key hashHex toolID input)).2 = c) := by
  constructor
  · have hpair : MemGet now c (Key hashHex toolID input) =
        (none, (MemGet now c (Key hashHex toolID input)).2) := by
      rw [← hmiss]
    simp only [Execute, hskip, Bool.false_eq_true, if_false]
    rw [hpair, herr]
  · intro hlive
    cases hL : lookupEntry c.entries (Key hashHex toolID input) with
    | none => simp [MemGet, hL]
    | some en => simp [MemGet, hL, hlive en hL]

/-- C9 witness: an erroring executor on an empty store — error returned
verbatim, store unchanged. -/
theorem c9_witness :
    shouldSkip ⟨DefaultPolicy, none⟩ "t" [] = false
      ∧ (MemGet 0 (NewMemoryCache DefaultPolicy) (Key (fun s => s) "t" CanonVal.null)).1 = none
      ∧ (fun _ : Nat => (Except.error "boom" : Except String (List Nat))) 0 = Except.error "boom"
      ∧ (Execute (fun s => s) ⟨DefaultPolicy, none⟩ 0 "t" CanonVal.null []
            (fun _ => (Except.error "boom" : Except String (List Nat))) 0
            (NewMemoryCache DefaultPolicy) =
          ⟨Except.error "boom",
            (MemGet 0 (NewMemoryCache DefaultPolicy) (Key (fun s => s) "t" CanonVal.null)).2, 1,
            [Op.get (Key (fun s => s) "t" CanonVal.null), Op.exec]⟩
        ∧ ((∀ en, lookupEntry (NewMemoryCache DefaultPolicy).entries
                (Key (fun s => s) "t" CanonVal.null) = some en → ¬ en.expiresAt < 0) →
            (MemGet 0 (NewMemoryCache DefaultPolicy) (Key (fun s => s) "t" CanonVal.null)).2 =
              NewMemoryCache DefaultPolicy)) :=
  ⟨by decide, by decide, rfl,
    c9_executor_error_propagates (fun s => s) ⟨DefaultPolicy, none⟩ 0 "t" CanonVal.null []
      "boom" (fun _ => .error "boom") 0 (NewMemoryCache DefaultPolicy)
      (by decide) (by decide) rfl⟩

/-- C9 counterexample to the claim as stated: with an expired entry stored
under the derived key, the call is on the miss path and the executor's error
is propagated with nothing written — yet the final store differs from the
initial one, because the lookup purged the expired entry. -/
theorem c9_state_change_counterexample :
    (MemGet 5 ⟨[("toolcache:t:null", ⟨[9], 0⟩)], DefaultPolicy⟩
        (Key (fun s => s) "t" CanonVal.null)).1 = none
      ∧ (Execute (fun s => s) ⟨DefaultPolicy, none⟩ 5 "t" CanonVal.null []
            (fun _ => (Except.error "boom" : Except String (List Nat))) 0
            ⟨[("toolcache:t:null", ⟨[9], 0⟩)], DefaultPolicy⟩).result = Except.error "boom"
      ∧ ¬ ((Execute (fun s => s) ⟨DefaultPolicy, none⟩ 5 "t" CanonVal.null []
            (fun _ => (Except.error "boom" : Except String (List Nat))) 0
            ⟨[("toolcache:t:null", ⟨[9], 0⟩)], DefaultPolicy⟩).cache =
          ⟨[("toolcache:t:null", ⟨[9], 0⟩)], DefaultPolicy⟩) := by
  refine ⟨by decide, by rfl, by decide⟩

/-- C1: under the default policy and default skip rule, with safe tags and
an always-succeeding (possibly stateful) executor, two sequential `Execute`
calls with the same tool, input and tags against an initially empty
`MemoryCache` — the second within the 5-minute default TTL — invoke the
executor exactly once; the second call performs only a cache lookup and both
calls return byte-for-byte the first executor result. -/
theorem c1_cache_hit_idempotence (hashHex : String → String) (toolID : String)
    (input : CanonVal) (tags : List String) (f : Nat → List Nat) (now1 now2 : Int)
    (o1 o2 : ExecOut Empty)
    (hsafe : DefaultSkipRule toolID tags = false)
    (hseq : now1 ≤ now2) (hwithin : now2 ≤ now1 + 5 * Minute)
    (ho1 : o1 = Execute hashHex ⟨DefaultPolicy, some DefaultSkipRule⟩ now1 toolID input tags
        (fun k => .ok (f k)) 0 (NewMemoryCache DefaultPolicy))
    (ho2 : o2 = Execute hashHex ⟨DefaultPolicy, some DefaultSkipRule⟩ now2 toolID input tags
        (fun k => .ok (f k)) o1.calls o1.cache) :
    o1.calls = 1 ∧ o2.calls = 1 ∧ o1.result = .ok (f 0) ∧ o2.result = o1.result
      ∧ o2.trace = [Op.get (Key hashHex toolID input)] := by
  have hskip : shouldSkip ⟨DefaultPolicy, some DefaultSkipRule⟩ toolID tags = false := by
    simp [shouldSkip, DefaultPolicy, hsafe]
  have httl : Policy.EffectiveTTL DefaultPolicy 0 = 5 * Minute := by decide
  have hpos : (0 : Int) < 5 * Minute := by decide
  have hnn : ¬ (5 * Minute ≤ (0 : Int)) := by decide
  have he1 : o1 = ⟨.ok (f 0),
      ⟨[(Key hashHex toolID input, ⟨f 0, now1 + 5 * Minute⟩)], DefaultPolicy⟩, 1,
      [Op.get (Key hashHex toolID input), Op.exec,
        Op.set (Key hashHex toolID input) (f 0) (5 * Minute)]⟩ := by
    rw [ho1]
    simp [Execute, hskip, NewMemoryCache, MemGet, lookupEntry, httl, hpos, MemSet, hnn, setEntry]
  have hexp : ¬ (now1 + 5 * Minute < now2) := by omega
  have he2 : o2 = ⟨.ok (f 0),
      ⟨[(Key hashHex toolID input, ⟨f 0, now1 + 5 * Minute⟩)], DefaultPolicy⟩, 1,
      [Op.get (Key hashHex toolID input)]⟩ := by
    rw [ho2, he1]
    simp [Execute, hskip, MemGet, lookupEntry, hexp]
  rw [he1, he2]
  exact ⟨rfl, rfl, rfl, rfl, rfl⟩

/-- C1 witness: concrete two-call run with tool `t`, input `null`, tag
`read`, executor returning `[5]`, both calls at time 0. -/
theorem c1_witness :
    DefaultSkipRule "t" ["read"] = false ∧ (0 : Int) ≤ 0 ∧ (0 : Int) ≤ 0 + 5 * Minute
      ∧ ((Execute (fun s => s) ⟨DefaultPolicy, some DefaultSkipRule⟩ 0 "t" CanonVal.null ["read"]
              (fun k => (Except.ok ((fun _ : Nat => ([5] : List Nat)) k) : Except Empty (List Nat)))
              0 (NewMemoryCache DefaultPolicy)).calls = 1
          ∧ (Execute (fun s => s) ⟨DefaultPolicy, some DefaultSkipRule⟩ 0 "t" CanonVal.null ["read"]
              (fun k => (Except.ok ((fun _ : Nat => ([5] : List Nat)) k) : Except Empty (List Nat)))
              (Execute (fun s => s) ⟨DefaultPolicy, some DefaultSkipRule⟩ 0 "t" CanonVal.null
                ["read"]
                (fun k => (Except.ok ((fun _ : Nat => ([5] : List Nat)) k) : Except Empty (List Nat)))
                0 (NewMemoryCache DefaultPolicy)).calls
              (Execute (fun s => s) ⟨DefaultPolicy, some DefaultSkipRule⟩ 0 "t" CanonVal.null
                ["read"]
                (fun k => (Except.ok ((fun _ : Nat => ([5] : List Nat)) k) : Except Empty (List Nat)))
                0 (NewMemoryCache DefaultPolicy)).cache).calls = 1
          ∧ (Execute (fun s => s) ⟨DefaultPolicy, some DefaultSkipRule⟩ 0 "t" CanonVal.null ["read"]
              (fun k => (Except.ok ((fun _ : Nat => ([5] : List Nat)) k) : Except Empty (List Nat)))
              0 (NewMemoryCache DefaultPolicy)).result = .ok ((fun _ : Nat => ([5] : List Nat)) 0)
          ∧ (Execute (fun s => s) ⟨DefaultPolicy, some DefaultSkipRule⟩ 0 "t" CanonVal.null ["read"]
              (fun k => (Except.ok ((fun _ : Nat => ([5] : List Nat)) k) : Except Empty (List Nat)))
              (Execute (fun s => s) ⟨DefaultPolicy, some DefaultSkipRule⟩ 0 "t" CanonVal.null
                ["read"]
                (fun k => (Except.ok ((fun _ : Nat => ([5] : List Nat)) k) : Except Empty (List Nat)))
                0 (NewMemoryCache DefaultPolicy)).calls
              (Execute (fun s => s) ⟨DefaultPolicy, some DefaultSkipRule⟩ 0 "t" CanonVal.null
                ["read"]
                (fun k => (Except.ok ((fun _ : Nat => ([5] : List Nat)) k) : Except Empty (List Nat)))
                0 (NewMemoryCache DefaultPolicy)).cache).result =
            (Execute (fun s => s) ⟨DefaultPolicy, some DefaultSkipRule⟩ 0 "t" CanonVal.null ["read"]
              (fun k => (Except.ok ((fun _ : Nat => ([5] : List Nat)) k) : Except Empty (List Nat)))
              0 (NewMemoryCache DefaultPolicy)).result
          ∧ (Execute (fun s => s) ⟨DefaultPolicy, some DefaultSkipRule⟩ 0 "t" CanonVal.null ["read"]
              (fun k => (Except.ok ((fun _ : Nat => ([5] : List Nat)) k) : Except Empty (List Nat)))
              (Execute (fun s => s) ⟨DefaultPolicy, some DefaultSkipRule⟩ 0 "t" CanonVal.null
                ["read"]
                (fun k => (Except.ok ((fun _ : Nat => ([5] : List Nat)) k) : Except Empty (List Nat)))
                0 (NewMemoryCache DefaultPolicy)).calls
              (Execute (fun s => s) ⟨DefaultPolicy, some DefaultSkipRule⟩ 0 "t" CanonVal.null
                ["read"]
                (fun k => (Except.ok ((fun _ : Nat => ([5] : List Nat)) k) : Except Empty (List Nat)))
                0 (NewMemoryCache DefaultPolicy)).cache).trace =
            [Op.get (Key (fun s => s) "t" CanonVal.null)]) :=
  ⟨by decide, by decide, by decide,
    c1_cache_hit_idempotence (fun s => s) "t" CanonVal.null ["read"] (fun _ => [5]) 0 0 _ _
      (by decide) (by decide) (by decide) rfl rfl⟩

end Toolcache
